import Mathlib

/-!
# jsonrpc-go: the dispatch engine

A shallow embedding of `jsonrpc/server.go` and `jsonrpc/service.go`:
request normalisation (`parseRequest`), the response constructors
(`errorResponse`, `successResponse`), the registry (`AddService`), the call
dispatcher (`handle`, `handleMethod`) and the type switch of `ServeHTTP`.

Conventions of the embedding
* a Go `any` is a `Value`; a Go `map[string]T` is an association list read
  with `GoMap.get`, a store puts the new binding in front;
* a Go `error` that is not nil is a `GoError`; a possibly nil one is an
  `Option GoError`;
* a run-time panic (failed type assertion) is `none`;
* the standard library is not part of the repository: `json.Marshal` is a
  parameter `marshal`, `fmt.Sprintf` and `strings.TrimSpace` are modelled on
  the fragment the code uses;
* `errors.go` (type `Error` and the error catalog) is not among the sources:
  what the spec fixes is modelled from it, the rest is the parameter
  `Catalog`.
-/

namespace JsonRpc

/-! ## Values and maps -/

/-- A Go string-keyed map as an association list; the first binding of a key
is the live one. -/
abbrev GoMap (α : Type) := List (String × α)

/-- Comma-ok lookup `v, ok := m[k]`. -/
def GoMap.get {α : Type} : GoMap α → String → Option α
  | [], _ => none
  | (k, v) :: rest, key => if key = k then some v else GoMap.get rest key

/-- Store `m[k] = v`. -/
def GoMap.set {α : Type} (m : GoMap α) (k : String) (v : α) : GoMap α :=
  (k, v) :: m

/-- A Go value of static type `any`. The first six shapes are what
`encoding/json` decodes into an `any`; `other` is a value of any other dynamic
type, named by its type (for instance a channel). -/
inductive Value where
  | nil
  | bool (b : Bool)
  | float64 (x : Rat)
  | string (s : String)
  | slice (xs : List Value)
  | map (kvs : List (String × Value))
  | other (typ : String)

/-- Index expression `m[k]` on a `map[string]any`: nil when the key is absent. -/
def index (m : GoMap Value) (k : String) : Value :=
  (GoMap.get m k).getD Value.nil

/-- Byte strings (`[]byte`), each element below 256. -/
abbrev Bytes := List Nat

/-! ## Errors -/

/-- Modelled from the spec: `errors.go` is not among the sources. The spec
(section 3) gives the record `Error` as an integer code and a message. -/
structure Error where
  Code : Int
  Message : String
deriving DecidableEq

/-- Modelled from the spec: the method `Error()` of `Error` (in the absent
`errors.go`) stringifies as `rpc error [<code>] <message>`; the test
`TestError_Error` says the same. -/
def Error.Error (e : Error) : String :=
  "rpc error [" ++ toString e.Code ++ "] " ++ e.Message

/-- A Go `error` value that is not nil. `typed e` has dynamic type `Error`;
`other text` has any other dynamic type (a `*fmt.wrapError`, an
`*errors.errorString`, a `*Error`, ...) and `text` is what its `Error()`
method returns. -/
inductive GoError where
  | typed (e : Error)
  | other (text : String)
deriving DecidableEq

/-- Method `Error()` of the interface `error`. -/
def GoError.Error : GoError → String
  | .typed e => e.Error
  | .other text => text

/-- Modelled from the spec: the part of the error catalog of the absent
`errors.go` that the spec leaves open: the messages of the reserved errors and
the application-defined entries (section 4.1 gives them no code). -/
structure Catalog where
  ParseErrorMessage : String
  InvalidRequestMessage : String
  InvalidParamsMessage : String
  InternalErrorMessage : String
  InvalidRpcVersion : Error
  InvalidMethodParam : Error
  RequestBodyIsEmpty : Error
  RequestBodyTooLargeError : Error
  ExecutionTimeoutError : Error

/-- Modelled from the spec: catalog entry `ParseError`, code -32700 (section 4.1). -/
def ParseError (c : Catalog) : Error := ⟨-32700, c.ParseErrorMessage⟩

/-- Modelled from the spec: catalog entry `InvalidRequest`, code -32600 (section 4.1). -/
def InvalidRequest (c : Catalog) : Error := ⟨-32600, c.InvalidRequestMessage⟩

/-- Modelled from the spec: catalog entry `MethodNotFound`, code -32601
(section 4.1) and message `Method not found` (section 8). -/
def MethodNotFound : Error := ⟨-32601, "Method not found"⟩

/-- Modelled from the spec: catalog entry `InvalidParams`, code -32602 (section 4.1). -/
def InvalidParams (c : Catalog) : Error := ⟨-32602, c.InvalidParamsMessage⟩

/-- Modelled from the spec: catalog entry `InternalError`, code -32603 (section 4.1). -/
def InternalError (c : Catalog) : Error := ⟨-32603, c.InternalErrorMessage⟩

/-! ## server.go -/

/-- Constant `Version`. -/
def Version : String := "2.0"

/-- Constant `MaxBytesRead`, 1 MiB. -/
def MaxBytesRead : Int := 2 ^ 20

/-- Constant `ExecutionTimeout`, 15 seconds in nanoseconds. -/
def ExecutionTimeout : Int := 15 * 1000000000

/-- Struct `Opts`. -/
structure Opts where
  MaxBytesRead : Int
  ExecutionTimeout : Int

/-- Variable `DefaultOpts`. -/
def DefaultOpts : Opts := ⟨MaxBytesRead, ExecutionTimeout⟩

/-- Struct `Request`. -/
structure Request where
  JsonRpc : String
  Id : Value
  Method : String
  Params : Value

/-- Struct `Response`; `Error` is a pointer, nil when absent; a nil `Result`
is omitted on the wire. -/
structure Response where
  JsonRpc : String
  Id : Value
  Result : Value
  Error : Option Error

/-- Struct `RequestParams`. -/
structure RequestParams where
  Payload : Bytes

/-- What one invocation of a handler does in the race of `handleMethod`:
either it returns its pair `(resp, err)` before the timer fires, or the timer
fires first (the handler is late or never returns). Which of the two cases of
the `select` is taken is part of the run; a handler that panics is outside the
model. -/
inductive HandlerRun where
  | returns (resp : Value) (err : Option GoError)
  | late

/-- Type `RequestFunc`; the context argument carries no data. -/
abbrev RequestFunc := RequestParams → HandlerRun

/-- Type `RequestMap`. -/
abbrev RequestMap := GoMap RequestFunc

/-- Variable `defaultReq`. -/
def defaultReq : Request := ⟨Version, Value.nil, "", Value.nil⟩

/-- Function `errorResponse` (server.go 68-88). -/
def errorResponse (c : Catalog) (req : Request) (err : GoError) : Response :=
  let res : Response := ⟨req.JsonRpc, req.Id, Value.nil, some ⟨0, ""⟩⟩
  match err with
  | .typed e =>
    let res : Response := { res with Error := some ⟨e.Code, e.Message⟩ }
    if e.Code = c.InvalidRpcVersion.Code then { res with JsonRpc := "" } else res
  | .other text =>
    { res with Error := some ⟨(InternalError c).Code, text⟩ }

/-- Function `successResponse` (server.go 90-96). -/
def successResponse (req : Request) (body : Value) : Response :=
  ⟨req.JsonRpc, req.Id, body, none⟩

/-- Function `parseRequest` (server.go 105-119); `none` is the panic of the
unchecked assertion `payload["method"].(string)`. -/
def parseRequest (payload : GoMap Value) : Option Request :=
  let req := defaultReq
  let req : Request :=
    match GoMap.get payload "jsonrpc" with
    | some (Value.string v) => { req with JsonRpc := v }
    | some _ => { req with JsonRpc := "" }
    | none => req
  let req : Request := { req with Id := index payload "id" }
  match index payload "method" with
  | Value.string m => some { req with Method := m, Params := index payload "params" }
  | _ => none

/-! ## Standard library fragments -/

/-- Go `unicode.IsSpace`: the code points with the White_Space property. -/
def isSpace (ch : Char) : Bool :=
  let n := ch.toNat
  (9 ≤ n && n ≤ 13) || n == 32 || n == 0x85 || n == 0xA0 || n == 0x1680 ||
  (0x2000 ≤ n && n ≤ 0x200A) || n == 0x2028 || n == 0x2029 || n == 0x202F ||
  n == 0x205F || n == 0x3000

/-- Go `strings.TrimSpace`: drop leading and trailing white space. -/
def TrimSpace (s : String) : String :=
  String.mk (((s.data.dropWhile isSpace).reverse.dropWhile isSpace).reverse)

/-- Go `fmt.Sprintf` on string operands, for formats whose only verb is `%s`:
each `%s` takes the next operand (`%!s(MISSING)` when none is left), and
operands left over at the end are reported as `%!(EXTRA string=..., ...)`. -/
def sprintfAux : List Char → List String → List Char
  | [], [] => []
  | [], a :: rest =>
    "%!(EXTRA ".data ++ (", ".intercalate ((a :: rest).map ("string=" ++ ·))).data ++ [')']
  | '%' :: 's' :: fmt, [] => "%!s(MISSING)".data ++ sprintfAux fmt []
  | '%' :: 's' :: fmt, a :: rest => a.data ++ sprintfAux fmt rest
  | ch :: fmt, args => ch :: sprintfAux fmt args

/-- Go `fmt.Sprintf`, see `sprintfAux`. -/
def Sprintf (format : String) (args : List String) : String :=
  String.mk (sprintfAux format.data args)

/-- Go `fmt.Errorf("%w: %s", e, s)` for an `Error` e and a string s: a
`*fmt.wrapError` whose text is `e.Error()`, a colon, a blank and s. Its
dynamic type is not `Error`. -/
def Errorf (e : Error) (s : String) : GoError :=
  GoError.other (Sprintf "%s: %s" [e.Error, s])

/-! ## service.go -/

/-- Struct `Service`. -/
structure Service where
  methodMap : RequestMap
  executionTimeout : Int
  maxBytesRead : Int

/-- Function `NewService`. -/
def NewService (opts : Opts) : Service :=
  ⟨[], opts.ExecutionTimeout, opts.MaxBytesRead⟩

/-- One handler invocation: the registry key and the payload handed over. -/
structure Invocation where
  method : String
  payload : Bytes
deriving DecidableEq

/-- Method `handleMethod` (service.go 90-118). Returns the pair
`(result, error)` and the handler invocations it made. -/
def handleMethod (c : Catalog) (marshal : Value → Except String Bytes)
    (s : Service) (req : Request) : (Value × Option GoError) × List Invocation :=
  match GoMap.get s.methodMap req.Method with
  | none => ((Value.nil, some (GoError.typed MethodNotFound)), [])
  | some fn =>
    match marshal req.Params with
    | .error msg => ((Value.nil, some (Errorf (InvalidRequest c) msg)), [])
    | .ok payload =>
      match fn ⟨payload⟩ with
      | .late =>
        ((Value.nil, some (GoError.typed c.ExecutionTimeoutError)), [⟨req.Method, payload⟩])
      | .returns resp err => ((resp, err), [⟨req.Method, payload⟩])

/-- Method `handle` (service.go 76-88), with the handler invocations made. -/
def handle (c : Catalog) (marshal : Value → Except String Bytes)
    (s : Service) (req : Request) : Response × List Invocation :=
  if req.JsonRpc ≠ Version then
    (errorResponse c req (GoError.typed c.InvalidRpcVersion), [])
  else if TrimSpace req.Method = "" then
    (errorResponse c req (GoError.typed c.InvalidMethodParam), [])
  else
    match handleMethod c marshal s req with
    | ((_, some err), calls) => (errorResponse c req err, calls)
    | ((res, none), calls) => (successResponse req res, calls)

/-- Body of the outer loop of `AddService` (service.go 122-129) for one
provider: `name` and `requestMap` are what its `Register` returns. A `range`
over a Go map visits the entries in an unspecified order; the list order stands
for the order of one run. -/
def addOne (methodMap : RequestMap) (name : String) (requestMap : RequestMap) : RequestMap :=
  let nameFmt := if name ≠ "" then "%s.%s" else "%s"
  requestMap.foldl (fun m kv => GoMap.set m (Sprintf nameFmt [name, kv.1]) kv.2) methodMap

/-- Method `AddService` (service.go 120-131); a provider is given by the pair
its `Register` returns. -/
def AddService (s : Service) (services : List (String × RequestMap)) : Service :=
  { s with methodMap := services.foldl (fun m srv => addOne m srv.1 srv.2) s.methodMap }

/-- What the type switch of `ServeHTTP` writes: one response or an array. -/
inductive Output where
  | single (r : Response)
  | batch (rs : List Response)

/-- All-or-nothing traversal: the i-th result is `f` of the i-th element, and
one `none` makes the whole `none`. -/
def mapAll {α β : Type} (f : α → Option β) : List α → Option (List β)
  | [] => some []
  | a :: rest =>
    match f a, mapAll f rest with
    | some b, some bs => some (b :: bs)
    | _, _ => none

/-- One batch element (service.go 63): `s.handle(parseRequest(p.(map[string]any)))`;
`none` is a panic of either assertion. -/
def handleElement (c : Catalog) (marshal : Value → Except String Bytes)
    (s : Service) (p : Value) : Option Response :=
  match p with
  | Value.map kvs => (parseRequest kvs).map (fun req => (handle c marshal s req).1)
  | _ => none

/-- The type switch of `ServeHTTP` on the decoded payload (service.go 54-73).
`none` is a panic. In the batch branch the elements run in goroutines writing
into pre-indexed slots; a panic in any of them is not recovered and ends the
process, so no response is produced for any element. -/
def serveDecoded (c : Catalog) (marshal : Value → Except String Bytes)
    (s : Service) (reqPayload : Value) : Option Output :=
  match reqPayload with
  | Value.slice payloads => (mapAll (handleElement c marshal s) payloads).map Output.batch
  | Value.map payload =>
    (parseRequest payload).map (fun req => Output.single (handle c marshal s req).1)
  | _ => some (Output.single (errorResponse c defaultReq (GoError.typed (InvalidRequest c))))

/-! ## Registration keys -/

/-- The key under which `AddService` stores the method `methodName` of a
provider named `name`: `fmt.Sprintf(nameFmt, name, methodName)` with the
`nameFmt` of service.go 123-126. -/
def composeKey (name methodName : String) : String :=
  Sprintf (if name ≠ "" then "%s.%s" else "%s") [name, methodName]

/-- A Go map has one binding per key: the association list that stands for it
repeats no key. -/
def GoMap.Unique {α : Type} (m : GoMap α) : Prop :=
  (m.map Prod.fst).Nodup

instance GoMap.decidableUnique {α : Type} (m : GoMap α) : Decidable (GoMap.Unique m) :=
  inferInstanceAs (Decidable (m.map Prod.fst).Nodup)

/-! ## The transport part of `ServeHTTP` -/

/-- An incoming `*http.Request`, reduced to what `ServeHTTP` reads: the HTTP
method and the body (`none` is a nil `Body`), taken as fully available. -/
structure HttpRequest where
  Method : String
  Body : Option Bytes

/-- What `ServeHTTP` sends: `http.Error(w, text, code)`, a plain-text answer
of the transport, or `writeResponse`, status 200 with the JSON encoding of the
response or response array. -/
inductive Reply where
  | httpError (text : String) (code : Nat)
  | wrote (out : Output)

/-- Go `io.Copy(buf, http.MaxBytesReader(w, body, limit))` (service.go 35-37):
the number of bytes copied and the error. A negative limit counts as 0. A body
within the limit is copied whole; of a longer body exactly `limit` bytes are
copied before the reader fails with `http: request body too large`. -/
def copyLimited (limit : Int) (body : Bytes) : Int × Option String :=
  let lim : Int := if limit < 0 then 0 else limit
  if (body.length : Int) ≤ lim then (body.length, none)
  else (lim, some "http: request body too large")

/-- Method `ServeHTTP` (service.go 25-74). `decode` stands for
`json.NewDecoder(buf).Decode`, `none` when the body is not valid JSON. The
result `none` is a panic of the dispatch part. -/
def ServeHTTP (c : Catalog) (decode : Bytes → Option Value)
    (marshal : Value → Except String Bytes) (s : Service) (r : HttpRequest) : Option Reply :=
  if r.Method ≠ "POST" then
    some (Reply.httpError "Method Not Allowed" 405)
  else
    match r.Body with
    | none =>
      some (Reply.wrote (Output.single
        (errorResponse c defaultReq (GoError.typed c.RequestBodyIsEmpty))))
    | some body =>
      match copyLimited s.maxBytesRead body with
      | (n, some err) =>
        if n > MaxBytesRead then
          some (Reply.wrote (Output.single
            (errorResponse c defaultReq (GoError.typed c.RequestBodyTooLargeError))))
        else
          some (Reply.httpError err 400)
      | (_, none) =>
        match decode body with
        | none =>
          some (Reply.wrote (Output.single
            (errorResponse c defaultReq (GoError.typed (ParseError c)))))
        | some reqPayload => (serveDecoded c marshal s reqPayload).map Reply.wrote

/-! ## Concrete instances of the parameters

The theorems below hold for every catalog and every `marshal`; these instances
are used only to evaluate the definitions on concrete inputs. -/

/-- An instance of the open part of the catalog, with pairwise distinct codes. -/
def sampleCatalog : Catalog :=
  { ParseErrorMessage := "Parse error"
    InvalidRequestMessage := "Invalid Request"
    InvalidParamsMessage := "Invalid params"
    InternalErrorMessage := "Internal error"
    InvalidRpcVersion := ⟨-32000, "Invalid rpc version"⟩
    InvalidMethodParam := ⟨-32001, "Invalid method"⟩
    RequestBodyIsEmpty := ⟨-32002, "Request body is empty"⟩
    RequestBodyTooLargeError := ⟨-32003, "Request body too large"⟩
    ExecutionTimeoutError := ⟨-32004, "Execution timeout"⟩ }

/-- An instance of `marshal` that agrees with `json.Marshal` on the two shapes
the evaluations below hand to it: nil encodes as the four bytes of `null`, and
a value of an unsupported type is rejected with the message of
`json.UnsupportedTypeError`. No evaluation below reaches the last case. -/
def sampleMarshal : Value → Except String Bytes
  | Value.nil => .ok [110, 117, 108, 108]
  | Value.other typ => .error ("json: unsupported type: " ++ typ)
  | _ => .error "json: value outside the modelled fragment"

/-- An instance of `decode` that agrees with the JSON decoder on the one body
the evaluations below may hand to it: the four bytes of `null` decode to nil.
Every other body is reported as invalid. -/
def sampleDecode : Bytes → Option Value
  | [110, 117, 108, 108] => some Value.nil
  | _ => none

/-- The handler of the example, `PingService.Echo`: returns `"ok"` and a nil error. -/
def Echo : RequestFunc := fun _ => HandlerRun.returns (Value.string "ok") none

/-- The provider of the example: `PingService.Register` returns the name
`PingService` and the map with the one entry `Ping`. -/
def PingService : String × RequestMap := ("PingService", [("Ping", Echo)])

/-! ## Lemmas -/

theorem errorResponse_Id (c : Catalog) (req : Request) (err : GoError) :
    (errorResponse c req err).Id = req.Id := by
  cases err with
  | typed e =>
    simp only [errorResponse]
    split <;> rfl
  | other text => rfl

theorem errorResponse_Result (c : Catalog) (req : Request) (err : GoError) :
    (errorResponse c req err).Result = Value.nil := by
  cases err with
  | typed e =>
    simp only [errorResponse]
    split <;> rfl
  | other text => rfl

theorem handle_Id (c : Catalog) (marshal : Value → Except String Bytes)
    (s : Service) (req : Request) : (handle c marshal s req).1.Id = req.Id := by
  unfold handle
  split
  · exact errorResponse_Id c req _
  · split
    · exact errorResponse_Id c req _
    · split
      · exact errorResponse_Id c req _
      · rfl

theorem parseRequest_of_method (payload : GoMap Value) (m : String)
    (hm : GoMap.get payload "method" = some (Value.string m)) :
    ∃ req, parseRequest payload = some req ∧ req.Id = index payload "id" ∧ req.Method = m := by
  have hidx : index payload "method" = Value.string m := by simp [index, hm]
  unfold parseRequest
  simp only [hidx]
  exact ⟨_, rfl, rfl, rfl⟩

theorem Sprintf_qualified (S M : String) : Sprintf "%s.%s" [S, M] = S ++ "." ++ M := by
  apply String.ext
  simp [Sprintf, sprintfAux]

theorem handle_invalid_version_aux (c : Catalog) (marshal : Value → Except String Bytes)
    (s : Service) (req : Request) (hv : req.JsonRpc ≠ Version) :
    handle c marshal s req =
      (⟨"", req.Id, Value.nil, some ⟨c.InvalidRpcVersion.Code, c.InvalidRpcVersion.Message⟩⟩, []) := by
  simp [handle, hv, errorResponse]

/-! ## Claims -/

/-- C1. Id echo: for every payload object whose `method` is a string, every
catalog, serializer, registry and handler outcome, `parseRequest` returns a
request and the response of `handle` on it has `Id` equal to `payload["id"]`,
which is nil when the key `id` is absent. -/
theorem handle_parseRequest_id_echo (c : Catalog) (marshal : Value → Except String Bytes)
    (s : Service) (payload : GoMap Value) (m : String)
    (hm : GoMap.get payload "method" = some (Value.string m)) :
    ∃ req, parseRequest payload = some req ∧
      (handle c marshal s req).1.Id =
        (match GoMap.get payload "id" with
         | some v => v
         | none => Value.nil) := by
  obtain ⟨req, hreq, hid, _⟩ := parseRequest_of_method payload m hm
  refine ⟨req, hreq, ?_⟩
  rw [handle_Id, hid]
  unfold index
  cases GoMap.get payload "id" <;> rfl

/-- Witness of C1 on a payload without the key `id`, the method being bound to a
handler that runs into the timeout. -/
theorem handle_parseRequest_id_echo_witness :
    GoMap.get [("jsonrpc", Value.string "2.0"), ("method", Value.string "Ping")] "method"
      = some (Value.string "Ping") ∧
    ∃ req, parseRequest [("jsonrpc", Value.string "2.0"), ("method", Value.string "Ping")] = some req ∧
      (handle sampleCatalog sampleMarshal ⟨[("Ping", fun _ => HandlerRun.late)], 15, 1024⟩ req).1.Id =
        (match GoMap.get [("jsonrpc", Value.string "2.0"), ("method", Value.string "Ping")] "id" with
         | some v => v
         | none => Value.nil) :=
  ⟨rfl, handle_parseRequest_id_echo sampleCatalog sampleMarshal _ _ "Ping" rfl⟩

/-- C2. Mutual exclusivity fails for a handler that returns a nil result with
a nil error: on the request with version 2.0, id 1 and method `Void`, bound to
such a handler, the response of `handle` has neither `Result` nor `Error` set. -/
theorem handle_nil_result_neither_set :
    (handle sampleCatalog sampleMarshal
        ⟨[("Void", fun _ => HandlerRun.returns Value.nil none)], 15, 1024⟩
        ⟨"2.0", Value.float64 1, "Void", Value.nil⟩).1
      = ⟨"2.0", Value.float64 1, Value.nil, none⟩ := by
  rfl

/-- C3. The pipeline faults on decoded payloads: an object without `method`
panics in `parseRequest`, and a batch whose second element is the number 1
panics in the batch loop, so that its well-formed first element gets no
response either. -/
theorem serveDecoded_faults :
    serveDecoded sampleCatalog sampleMarshal (AddService (NewService DefaultOpts) [PingService])
        (Value.map [("jsonrpc", Value.string "2.0"), ("id", Value.float64 1)]) = none ∧
    serveDecoded sampleCatalog sampleMarshal (AddService (NewService DefaultOpts) [PingService])
        (Value.slice
          [Value.map [("jsonrpc", Value.string "2.0"), ("id", Value.float64 1),
                      ("method", Value.string "PingService.Ping")],
           Value.float64 1]) = none := by
  constructor <;> rfl

/-- C4. Registering under the empty service name does not make the handler
reachable under the bare method name: after `AddService` with the provider
whose `Register` returns the empty name and the one-entry map from `Ping` to
`Echo`, the key `Ping` is unbound, a request for `Ping` is
answered with MethodNotFound, and the handler sits under the key that
`Sprintf("%s", "", "Ping")` produces. -/
theorem AddService_empty_name_unreachable :
    (GoMap.get (AddService (NewService DefaultOpts) [("", [("Ping", Echo)])]).methodMap "Ping").isNone
      = true ∧
    (GoMap.get (AddService (NewService DefaultOpts) [("", [("Ping", Echo)])]).methodMap
        "%!(EXTRA string=Ping)").isSome = true ∧
    handle sampleCatalog sampleMarshal (AddService (NewService DefaultOpts) [("", [("Ping", Echo)])])
        ⟨"2.0", Value.float64 1, "Ping", Value.nil⟩
      = (⟨"2.0", Value.float64 1, Value.nil, some ⟨-32601, "Method not found"⟩⟩, []) := by
  refine ⟨by decide, by decide, rfl⟩

/-- C5. Registry key composition, service-qualified name: for every service
with any prior registry, every service name S that is not empty, method name M
and handler h, after `AddService` with a provider whose `Register` returns S and the
one-entry map from M to h, the key `S.M` is bound to h. -/
theorem AddService_qualified_key (s : Service) (S M : String) (h : RequestFunc)
    (hS : S ≠ "") :
    GoMap.get (AddService s [(S, [(M, h)])]).methodMap (S ++ "." ++ M) = some h := by
  simp [AddService, addOne, hS, GoMap.set, GoMap.get, Sprintf_qualified]

/-- Witness of C5: the example registers `PingService`, whose handler becomes
reachable under `PingService.Ping`. -/
theorem AddService_qualified_key_witness :
    "PingService" ≠ "" ∧
    GoMap.get (AddService (NewService DefaultOpts) [("PingService", [("Ping", Echo)])]).methodMap
      ("PingService" ++ "." ++ "Ping") = some Echo :=
  ⟨by decide, AddService_qualified_key (NewService DefaultOpts) "PingService" "Ping" Echo (by decide)⟩

/-- C6. Version check: for every request whose version is not exactly `2.0`
(the empty string included), whatever its method and params, and for every
registry, `handle` returns the error response with the code and message of
InvalidRpcVersion, an empty version field, the request id and no result, and
invokes no handler; the right-hand side mentions neither the registry nor the
serializer. -/
theorem handle_invalid_version (c : Catalog) (marshal : Value → Except String Bytes)
    (s : Service) (req : Request) (hv : req.JsonRpc ≠ "2.0") :
    handle c marshal s req =
      (⟨"", req.Id, Value.nil, some ⟨c.InvalidRpcVersion.Code, c.InvalidRpcVersion.Message⟩⟩, []) := by
  have hv2 : req.JsonRpc ≠ Version := hv
  simp [handle, hv2, errorResponse]

/-- Witness of C6 on the request parsed from the payload with `jsonrpc` 1.0 and
method `X`, against a registry that binds `X`. -/
theorem handle_invalid_version_witness :
    "1.0" ≠ "2.0" ∧
    handle sampleCatalog sampleMarshal ⟨[("X", Echo)], 15, 1024⟩ ⟨"1.0", Value.nil, "X", Value.nil⟩ =
      (⟨"", Value.nil, Value.nil, some ⟨-32000, "Invalid rpc version"⟩⟩, []) :=
  ⟨by decide,
   handle_invalid_version sampleCatalog sampleMarshal ⟨[("X", Echo)], 15, 1024⟩
     ⟨"1.0", Value.nil, "X", Value.nil⟩ (by decide)⟩

/-- C7. Method validity: for every request with version `2.0` whose method is
empty after trimming white space, and for every registry, `handle` returns the
error response with the code and message of InvalidMethodParam, version `2.0`,
the request id and no result, and invokes no handler. The catalog is a
parameter; its entry InvalidMethodParam is taken to have a code other than that
of InvalidRpcVersion. -/
theorem handle_blank_method (c : Catalog) (marshal : Value → Except String Bytes)
    (s : Service) (req : Request)
    (hcode : c.InvalidMethodParam.Code ≠ c.InvalidRpcVersion.Code)
    (hv : req.JsonRpc = "2.0") (hm : TrimSpace req.Method = "") :
    handle c marshal s req =
      (⟨"2.0", req.Id, Value.nil, some ⟨c.InvalidMethodParam.Code, c.InvalidMethodParam.Message⟩⟩,
       []) := by
  have hv2 : req.JsonRpc = Version := hv
  simp [handle, hv2, hm, errorResponse, hcode, Version]

/-- Witness of C7: the method is two blanks and the registry binds a handler
under that very key. -/
theorem handle_blank_method_witness :
    sampleCatalog.InvalidMethodParam.Code ≠ sampleCatalog.InvalidRpcVersion.Code ∧
    TrimSpace "  " = "" ∧
    handle sampleCatalog sampleMarshal ⟨[("  ", Echo)], 15, 1024⟩
        ⟨"2.0", Value.float64 7, "  ", Value.nil⟩ =
      (⟨"2.0", Value.float64 7, Value.nil, some ⟨-32001, "Invalid method"⟩⟩, []) :=
  ⟨by decide, by decide,
   handle_blank_method sampleCatalog sampleMarshal ⟨[("  ", Echo)], 15, 1024⟩
     ⟨"2.0", Value.float64 7, "  ", Value.nil⟩ (by decide) (by decide) (by decide)⟩

/-- C8. Method not found: for every request with version `2.0` and a method
that is not blank and not a key of the method map, `handle` returns exactly the
response with version `2.0`, the request id, no result and the error
MethodNotFound (code -32601, message `Method not found`), and invokes no
handler. The catalog is a parameter; its entry InvalidRpcVersion is taken to
have a code other than -32601. -/
theorem handle_method_not_found (c : Catalog) (marshal : Value → Except String Bytes)
    (s : Service) (req : Request)
    (hcode : c.InvalidRpcVersion.Code ≠ -32601)
    (hv : req.JsonRpc = "2.0") (hm : TrimSpace req.Method ≠ "")
    (hk : GoMap.get s.methodMap req.Method = none) :
    handle c marshal s req =
      (⟨"2.0", req.Id, Value.nil, some ⟨-32601, "Method not found"⟩⟩, []) := by
  have hv2 : req.JsonRpc = Version := hv
  have hcode2 : ¬ (-32601 : Int) = c.InvalidRpcVersion.Code := fun h => hcode h.symm
  simp [handle, hv2, hm, handleMethod, hk, errorResponse, MethodNotFound, hcode2, Version]

/-- Witness of C8: the request with version 2.0, id 2 and method `Missing`,
against the registry of the example. -/
theorem handle_method_not_found_witness :
    sampleCatalog.InvalidRpcVersion.Code ≠ -32601 ∧
    TrimSpace "Missing" ≠ "" ∧
    GoMap.get (AddService (NewService DefaultOpts) [PingService]).methodMap "Missing" = none ∧
    handle sampleCatalog sampleMarshal (AddService (NewService DefaultOpts) [PingService])
        ⟨"2.0", Value.float64 2, "Missing", Value.nil⟩ =
      (⟨"2.0", Value.float64 2, Value.nil, some ⟨-32601, "Method not found"⟩⟩, []) :=
  ⟨by decide, by decide, rfl,
   handle_method_not_found sampleCatalog sampleMarshal
     (AddService (NewService DefaultOpts) [PingService])
     ⟨"2.0", Value.float64 2, "Missing", Value.nil⟩ (by decide) (by decide) (by decide) rfl⟩

/-- C9. Error-to-response mapping: for every request and every error value,
`errorResponse` has no result and a populated error, which carries the code and
message of the error value when its dynamic type is `Error`, and otherwise the
code -32603 of InternalError with the text of the error value as message. -/
theorem errorResponse_mapping (c : Catalog) (req : Request) (err : GoError) :
    (errorResponse c req err).Result = Value.nil ∧
    (errorResponse c req err).Error =
      some (match err with
            | GoError.typed e => ⟨e.Code, e.Message⟩
            | GoError.other _ => ⟨-32603, err.Error⟩) := by
  refine ⟨errorResponse_Result c req err, ?_⟩
  cases err with
  | typed e =>
    simp only [errorResponse]
    split <;> rfl
  | other text => rfl

theorem Sprintf_wrap (a b : String) : Sprintf "%s: %s" [a, b] = a ++ ": " ++ b := by
  apply String.ext
  simp [Sprintf, sprintfAux]

/-- C10, counterexample. The request has version 2.0, id 1, the registered
method `PingService.Ping` and a channel as params, which the serializer
rejects; the response of `handle` carries an error, and its code is not the
code -32600 of InvalidRequest. -/
theorem handle_marshal_failure_not_invalid_request_code :
    sampleMarshal (Value.other "chan int") = Except.error "json: unsupported type: chan int" ∧
    (handle sampleCatalog sampleMarshal (AddService (NewService DefaultOpts) [PingService])
        ⟨"2.0", Value.float64 1, "PingService.Ping", Value.other "chan int"⟩).1.Error =
      some ⟨-32603, "rpc error [-32600] Invalid Request: json: unsupported type: chan int"⟩ ∧
    ¬ ∃ e : Error,
      (handle sampleCatalog sampleMarshal (AddService (NewService DefaultOpts) [PingService])
        ⟨"2.0", Value.float64 1, "PingService.Ping", Value.other "chan int"⟩).1.Error = some e ∧
      e.Code = (InvalidRequest sampleCatalog).Code := by
  refine ⟨rfl, by decide, ?_⟩
  rintro ⟨e, he, hcode⟩
  have hval : (handle sampleCatalog sampleMarshal
      (AddService (NewService DefaultOpts) [PingService])
      ⟨"2.0", Value.float64 1, "PingService.Ping", Value.other "chan int"⟩).1.Error =
      some ⟨-32603, "rpc error [-32600] Invalid Request: json: unsupported type: chan int"⟩ := by
    decide
  rw [hval] at he
  injection he with he
  subst he
  exact absurd hcode (by decide)

/-- C10, amended. For every request with version `2.0` and a method that is not
blank and is bound in the method map, if serializing its params fails with the
message `msg`, then `handle` returns the error response with version `2.0`,
the request id, no result, the code -32603 of InternalError and, as message,
the text of InvalidRequest followed by a colon, a blank and `msg`; no handler
is invoked. The error that `handleMethod` returns wraps InvalidRequest, its
dynamic type is not `Error`, and `errorResponse` maps it as any other error. -/
theorem handle_marshal_failure (c : Catalog) (marshal : Value → Except String Bytes)
    (s : Service) (req : Request) (fn : RequestFunc) (msg : String)
    (hv : req.JsonRpc = "2.0") (hm : TrimSpace req.Method ≠ "")
    (hk : GoMap.get s.methodMap req.Method = some fn)
    (hp : marshal req.Params = Except.error msg) :
    handle c marshal s req =
      (⟨"2.0", req.Id, Value.nil, some ⟨-32603, (InvalidRequest c).Error ++ ": " ++ msg⟩⟩,
       []) := by
  have hv2 : req.JsonRpc = Version := hv
  simp [handle, hv2, hm, handleMethod, hk, hp, errorResponse, Errorf, Sprintf_wrap,
    InternalError, Version]

/-- Witness of C10, amended: the request of the counterexample, whose params are
a channel. -/
theorem handle_marshal_failure_witness :
    TrimSpace "PingService.Ping" ≠ "" ∧
    sampleMarshal (Value.other "chan int") = Except.error "json: unsupported type: chan int" ∧
    handle sampleCatalog sampleMarshal (AddService (NewService DefaultOpts) [PingService])
        ⟨"2.0", Value.float64 1, "PingService.Ping", Value.other "chan int"⟩ =
      (⟨"2.0", Value.float64 1, Value.nil,
        some ⟨-32603, (InvalidRequest sampleCatalog).Error ++ ": " ++
          "json: unsupported type: chan int"⟩⟩,
       []) :=
  ⟨by decide, rfl,
   handle_marshal_failure sampleCatalog sampleMarshal
     (AddService (NewService DefaultOpts) [PingService])
     ⟨"2.0", Value.float64 1, "PingService.Ping", Value.other "chan int"⟩ Echo
     "json: unsupported type: chan int" rfl (by decide) rfl rfl⟩

/-- C11. Success mapping: for every request with version `2.0` and a method
that is not blank and is bound in the method map to a handler, if the params
serialize to `payload` and the handler, run on `payload`, returns the result r
with a nil error before the deadline, then `handle` returns exactly the
response with version `2.0`, the request id, the result r and no error, and
the one handler invocation it makes carries `payload`. -/
theorem handle_success (c : Catalog) (marshal : Value → Except String Bytes)
    (s : Service) (req : Request) (fn : RequestFunc) (payload : Bytes) (r : Value)
    (hv : req.JsonRpc = "2.0") (hm : TrimSpace req.Method ≠ "")
    (hk : GoMap.get s.methodMap req.Method = some fn)
    (hp : marshal req.Params = Except.ok payload)
    (hr : fn ⟨payload⟩ = HandlerRun.returns r none) :
    handle c marshal s req = (⟨"2.0", req.Id, r, none⟩, [⟨req.Method, payload⟩]) := by
  have hv2 : req.JsonRpc = Version := hv
  simp [handle, hv2, hm, handleMethod, hk, hp, hr, successResponse, Version]

/-- Witness of C11: the request with version 2.0, id 1, method `Ping` and null
params, against a registry that binds `Ping` to the handler returning `ok`. -/
theorem handle_success_witness :
    TrimSpace "Ping" ≠ "" ∧
    sampleMarshal Value.nil = Except.ok [110, 117, 108, 108] ∧
    handle sampleCatalog sampleMarshal ⟨[("Ping", Echo)], 15, 1024⟩
        ⟨"2.0", Value.float64 1, "Ping", Value.nil⟩ =
      (⟨"2.0", Value.float64 1, Value.string "ok", none⟩, [⟨"Ping", [110, 117, 108, 108]⟩]) :=
  ⟨by decide, rfl,
   handle_success sampleCatalog sampleMarshal ⟨[("Ping", Echo)], 15, 1024⟩
     ⟨"2.0", Value.float64 1, "Ping", Value.nil⟩ Echo [110, 117, 108, 108] (Value.string "ok")
     rfl (by decide) rfl rfl rfl⟩

/-! ## Batches -/

theorem mapAll_positional {α β : Type} (f : α → Option β) (l : List α)
    (h : ∀ a ∈ l, ∃ b, f a = some b) :
    ∃ rs : List β, mapAll f l = some rs ∧ rs.length = l.length ∧
      ∀ (i : Nat) (a : α), l[i]? = some a → rs[i]? = f a := by
  induction l with
  | nil => exact ⟨[], rfl, rfl, by simp⟩
  | cons x xs ih =>
    obtain ⟨b, hb⟩ := h x (List.mem_cons_self x xs)
    obtain ⟨rs, hrs, hlen, hpos⟩ := ih (fun a ha => h a (List.mem_cons_of_mem x ha))
    refine ⟨b :: rs, ?_, ?_, ?_⟩
    · simp [mapAll, hb, hrs]
    · simp [hlen]
    · intro i a hi
      cases i with
      | zero =>
        simp at hi
        subst hi
        simpa using hb.symm
      | succ j =>
        simp at hi
        simpa using hpos j a hi

theorem handleElement_of_method (c : Catalog) (marshal : Value → Except String Bytes)
    (s : Service) (kvs : GoMap Value) (m : String)
    (hm : GoMap.get kvs "method" = some (Value.string m)) :
    ∃ req, parseRequest kvs = some req ∧
      handleElement c marshal s (Value.map kvs) = some (handle c marshal s req).1 := by
  obtain ⟨req, hreq, _, _⟩ := parseRequest_of_method kvs m hm
  exact ⟨req, hreq, by simp [handleElement, hreq]⟩

/-- C12. Batch order: for every array payload whose N elements are all objects
with a string `method`, the batch branch returns an array of exactly N
responses, and for every index i the i-th response is `handle` of
`parseRequest` of the i-th element: the result is the positional map of
single-call dispatch. -/
theorem serveDecoded_batch_positional (c : Catalog) (marshal : Value → Except String Bytes)
    (s : Service) (payloads : List Value)
    (hobj : ∀ p ∈ payloads, ∃ kvs m, p = Value.map kvs ∧
      GoMap.get kvs "method" = some (Value.string m)) :
    ∃ rs, serveDecoded c marshal s (Value.slice payloads) = some (Output.batch rs) ∧
      rs.length = payloads.length ∧
      ∀ i : Nat, i < payloads.length →
        ∃ kvs req, payloads[i]? = some (Value.map kvs) ∧ parseRequest kvs = some req ∧
          rs[i]? = some (handle c marshal s req).1 := by
  have hall : ∀ p ∈ payloads, ∃ b, handleElement c marshal s p = some b := by
    intro p hp
    obtain ⟨kvs, m, rfl, hm⟩ := hobj p hp
    obtain ⟨req, _, hreq⟩ := handleElement_of_method c marshal s kvs m hm
    exact ⟨_, hreq⟩
  obtain ⟨rs, hrs, hlen, hpos⟩ := mapAll_positional (handleElement c marshal s) payloads hall
  refine ⟨rs, by simp [serveDecoded, hrs], hlen, ?_⟩
  intro i hi
  have hget : payloads[i]? = some payloads[i] := List.getElem?_eq_getElem hi
  obtain ⟨kvs, m, hp, hm⟩ := hobj payloads[i] (List.getElem_mem hi)
  obtain ⟨req, hparse, hreq⟩ := handleElement_of_method c marshal s kvs m hm
  refine ⟨kvs, req, by rw [hget, hp], hparse, ?_⟩
  rw [hpos i payloads[i] hget, hp, hreq]

/-- Witness of C12: a batch of two calls, the first for a missing method and
the second for `PingService.Ping`. -/
theorem serveDecoded_batch_positional_witness :
    ∃ rs, serveDecoded sampleCatalog sampleMarshal
        (AddService (NewService DefaultOpts) [PingService])
        (Value.slice
          [Value.map [("jsonrpc", Value.string "2.0"), ("id", Value.float64 2),
                      ("method", Value.string "Missing")],
           Value.map [("jsonrpc", Value.string "2.0"), ("id", Value.float64 1),
                      ("method", Value.string "PingService.Ping")]]) = some (Output.batch rs) ∧
      rs.length = 2 ∧
      ∀ i : Nat, i < 2 →
        ∃ kvs req,
          [Value.map [("jsonrpc", Value.string "2.0"), ("id", Value.float64 2),
                      ("method", Value.string "Missing")],
           Value.map [("jsonrpc", Value.string "2.0"), ("id", Value.float64 1),
                      ("method", Value.string "PingService.Ping")]][i]? = some (Value.map kvs) ∧
          parseRequest kvs = some req ∧
          rs[i]? = some (handle sampleCatalog sampleMarshal
            (AddService (NewService DefaultOpts) [PingService]) req).1 :=
  serveDecoded_batch_positional sampleCatalog sampleMarshal
    (AddService (NewService DefaultOpts) [PingService]) _
    (by
      intro p hp
      simp only [List.mem_cons, List.mem_singleton, List.not_mem_nil, or_false] at hp
      rcases hp with rfl | rfl
      · exact ⟨_, "Missing", rfl, rfl⟩
      · exact ⟨_, "PingService.Ping", rfl, rfl⟩)

/-- C13. Non-call payload: for every decoded value that is neither an array
nor an object (string, number, boolean, null), the type switch of `ServeHTTP`
writes a single response, not an array, with version `2.0` (that of the default
request), a nil id, no result and the error InvalidRequest with code -32600.
The catalog is a parameter; its entry InvalidRpcVersion is taken to have a code
other than -32600. -/
theorem serveDecoded_non_call (c : Catalog) (marshal : Value → Except String Bytes)
    (s : Service) (v : Value)
    (hcode : c.InvalidRpcVersion.Code ≠ -32600)
    (harr : ∀ xs, v ≠ Value.slice xs) (hobj : ∀ kvs, v ≠ Value.map kvs) :
    serveDecoded c marshal s v =
      some (Output.single
        ⟨"2.0", Value.nil, Value.nil, some ⟨-32600, c.InvalidRequestMessage⟩⟩) := by
  have hcode2 : ¬ (-32600 : Int) = c.InvalidRpcVersion.Code := fun h => hcode h.symm
  cases v with
  | slice xs => exact absurd rfl (harr xs)
  | map kvs => exact absurd rfl (hobj kvs)
  | nil => simp [serveDecoded, errorResponse, InvalidRequest, defaultReq, Version, hcode2]
  | bool b => simp [serveDecoded, errorResponse, InvalidRequest, defaultReq, Version, hcode2]
  | float64 x => simp [serveDecoded, errorResponse, InvalidRequest, defaultReq, Version, hcode2]
  | string t => simp [serveDecoded, errorResponse, InvalidRequest, defaultReq, Version, hcode2]
  | other typ => simp [serveDecoded, errorResponse, InvalidRequest, defaultReq, Version, hcode2]

/-- Witness of C13 on the decoded string `hello`. -/
theorem serveDecoded_non_call_witness :
    sampleCatalog.InvalidRpcVersion.Code ≠ -32600 ∧
    serveDecoded sampleCatalog sampleMarshal (AddService (NewService DefaultOpts) [PingService])
        (Value.string "hello") =
      some (Output.single ⟨"2.0", Value.nil, Value.nil, some ⟨-32600, "Invalid Request"⟩⟩) :=
  ⟨by decide,
   serveDecoded_non_call sampleCatalog sampleMarshal
     (AddService (NewService DefaultOpts) [PingService]) (Value.string "hello") (by decide)
     (fun _ h => Value.noConfusion h) (fun _ h => Value.noConfusion h)⟩

/-- C14. Version normalization asymmetry: for every payload object with a
string `method`, `parseRequest` returns a request whose version is `2.0` when
the key `jsonrpc` is absent, v when the key holds the string v, and empty when
the key holds any other value. Consequently, with the key absent `handle` goes
past its version check (it answers as the method check and the dispatch
decide), and with a value that is not a string `handle` answers with the
InvalidRpcVersion rejection. -/
theorem parseRequest_version (payload : GoMap Value) (m : String)
    (hm : GoMap.get payload "method" = some (Value.string m)) :
    ∃ req, parseRequest payload = some req ∧
      (match GoMap.get payload "jsonrpc" with
       | none =>
         req.JsonRpc = "2.0" ∧
         ∀ (c : Catalog) (marshal : Value → Except String Bytes) (s : Service),
           handle c marshal s req =
             if TrimSpace req.Method = "" then
               (errorResponse c req (GoError.typed c.InvalidMethodParam), [])
             else
               match handleMethod c marshal s req with
               | ((_, some err), calls) => (errorResponse c req err, calls)
               | ((res, none), calls) => (successResponse req res, calls)
       | some (Value.string v) => req.JsonRpc = v
       | some _ =>
         req.JsonRpc = "" ∧
         ∀ (c : Catalog) (marshal : Value → Except String Bytes) (s : Service),
           handle c marshal s req =
             (⟨"", req.Id, Value.nil,
               some ⟨c.InvalidRpcVersion.Code, c.InvalidRpcVersion.Message⟩⟩, [])) := by
  have hidx : index payload "method" = Value.string m := by simp [index, hm]
  unfold parseRequest
  simp only [hidx]
  refine ⟨_, rfl, ?_⟩
  have hbad : ∀ (r : Request), r.JsonRpc = "" →
      ∀ (c : Catalog) (marshal : Value → Except String Bytes) (s : Service),
        handle c marshal s r =
          (⟨"", r.Id, Value.nil,
            some ⟨c.InvalidRpcVersion.Code, c.InvalidRpcVersion.Message⟩⟩, []) := by
    intro r hr c marshal s
    exact handle_invalid_version_aux c marshal s r (by rw [hr]; decide)
  cases hj : GoMap.get payload "jsonrpc" with
  | none =>
    refine ⟨rfl, ?_⟩
    intro c marshal s
    simp [handle, defaultReq]
  | some v =>
    cases v with
    | string t => rfl
    | nil => exact ⟨rfl, hbad _ rfl⟩
    | bool b => exact ⟨rfl, hbad _ rfl⟩
    | float64 x => exact ⟨rfl, hbad _ rfl⟩
    | slice xs => exact ⟨rfl, hbad _ rfl⟩
    | map kvs => exact ⟨rfl, hbad _ rfl⟩
    | other typ => exact ⟨rfl, hbad _ rfl⟩

/-- Witness of C14 on the payload whose `jsonrpc` is the number 2 and whose
method is `X`: the version is empty and `handle` rejects it. -/
theorem parseRequest_version_witness :
    GoMap.get [("jsonrpc", Value.float64 2), ("method", Value.string "X")] "method"
      = some (Value.string "X") ∧
    ∃ req, parseRequest [("jsonrpc", Value.float64 2), ("method", Value.string "X")] = some req ∧
      req.JsonRpc = "" ∧
      ∀ (c : Catalog) (marshal : Value → Except String Bytes) (s : Service),
        handle c marshal s req =
          (⟨"", req.Id, Value.nil,
            some ⟨c.InvalidRpcVersion.Code, c.InvalidRpcVersion.Message⟩⟩, []) :=
  ⟨rfl, parseRequest_version [("jsonrpc", Value.float64 2), ("method", Value.string "X")] "X" rfl⟩

/-- C17. Error stringification: for every code c and message m, `Error()`
returns `rpc error [`, the decimal form of c, `] ` and m; on the value of the
test `TestError_Error` (code 500, message `Standard Error`) this is
`rpc error [500] Standard Error`, and a negative code keeps its sign. -/
theorem Error_stringification (code : Int) (m : String) :
    (Error.mk code m).Error = "rpc error [" ++ toString code ++ "] " ++ m ∧
    (Error.mk 500 "Standard Error").Error = "rpc error [500] Standard Error" ∧
    (Error.mk (-32601) "Method not found").Error = "rpc error [-32601] Method not found" := by
  exact ⟨rfl, by decide, by decide⟩

/-- C18. An over-size body is answered by the transport, not with
RequestBodyTooLargeError: for every service whose ceiling `maxBytesRead` is
not negative and at most the constant `MaxBytesRead` (1 MiB, the default) and
every POST body longer than the ceiling, `ServeHTTP` answers `http.Error` with
status 400 and the text of the reader, because the count `n` of bytes copied
never exceeds the ceiling and the code tests `n > MaxBytesRead`. -/
theorem ServeHTTP_oversize_transport_error (c : Catalog) (decode : Bytes → Option Value)
    (marshal : Value → Except String Bytes) (s : Service) (body : Bytes)
    (hpos : 0 ≤ s.maxBytesRead) (hlim : s.maxBytesRead ≤ MaxBytesRead)
    (hbig : s.maxBytesRead < (body.length : Int)) :
    ServeHTTP c decode marshal s ⟨"POST", some body⟩ =
      some (Reply.httpError "http: request body too large" 400) := by
  have hneg : ¬ s.maxBytesRead < 0 := by omega
  have h1 : ¬ ((body.length : Int) ≤ s.maxBytesRead) := by omega
  have h2 : ¬ (MaxBytesRead < s.maxBytesRead) := by omega
  simp [ServeHTTP, copyLimited, hneg, h1, h2]

/-- Witness of C18: the default service and a body of 1 MiB and one byte. -/
theorem ServeHTTP_oversize_transport_error_witness :
    ServeHTTP sampleCatalog sampleDecode sampleMarshal (NewService DefaultOpts)
        ⟨"POST", some (List.replicate (2 ^ 20 + 1) 0)⟩ =
      some (Reply.httpError "http: request body too large" 400) :=
  ServeHTTP_oversize_transport_error sampleCatalog sampleDecode sampleMarshal
    (NewService DefaultOpts) (List.replicate (2 ^ 20 + 1) 0)
    (by decide) (le_refl _)
    (by rw [List.length_replicate]; decide)

/-- C19, counterexample. The request has version `2.0`, yet the response has an
empty version field: the method `Bad` is bound to a handler that returns the
typed error InvalidRpcVersion, and `errorResponse` clears the version on that
code. -/
theorem handle_version_cleared_by_handler_error :
    ¬ ((handle sampleCatalog sampleMarshal
          ⟨[("Bad", fun _ =>
              HandlerRun.returns Value.nil (some (GoError.typed sampleCatalog.InvalidRpcVersion)))],
            15, 1024⟩
          ⟨"2.0", Value.float64 1, "Bad", Value.nil⟩).1.JsonRpc = "" ↔
        ("2.0" : String) ≠ "2.0") := by
  decide

/-- C19, amended. For every request, registry and handler outcome, the response
of `handle` has an empty version field if and only if the request version is
not `2.0`, or the method is not blank and its handler, run on the serialized
params, returns an error of dynamic type `Error` whose code is that of
InvalidRpcVersion; in every other case the response version is `2.0`. The
catalog is a parameter; InvalidMethodParam, MethodNotFound (-32601) and
ExecutionTimeoutError are taken to have codes other than that of
InvalidRpcVersion. -/
theorem handle_version_field (c : Catalog) (marshal : Value → Except String Bytes)
    (s : Service) (req : Request)
    (h1 : c.InvalidMethodParam.Code ≠ c.InvalidRpcVersion.Code)
    (h2 : c.InvalidRpcVersion.Code ≠ -32601)
    (h3 : c.ExecutionTimeoutError.Code ≠ c.InvalidRpcVersion.Code) :
    ((handle c marshal s req).1.JsonRpc = "" ↔
      (req.JsonRpc ≠ "2.0" ∨
        (TrimSpace req.Method ≠ "" ∧
          ∃ fn payload resp e,
            GoMap.get s.methodMap req.Method = some fn ∧
            marshal req.Params = Except.ok payload ∧
            fn ⟨payload⟩ = HandlerRun.returns resp (some (GoError.typed e)) ∧
            e.Code = c.InvalidRpcVersion.Code))) ∧
    ((handle c marshal s req).1.JsonRpc = "" ∨ (handle c marshal s req).1.JsonRpc = "2.0") := by
  have h2b : ¬ (-32601 : Int) = c.InvalidRpcVersion.Code := fun h => h2 h.symm
  by_cases hv : req.JsonRpc = "2.0"
  swap
  · have hv2 : req.JsonRpc ≠ Version := hv
    rw [handle_invalid_version_aux c marshal s req hv2]
    simp [hv]
  have hv2 : req.JsonRpc = Version := hv
  by_cases hm : TrimSpace req.Method = ""
  · simp [handle, hv2, hm, errorResponse, h1, Version]
  cases hk : GoMap.get s.methodMap req.Method with
  | none => simp [handle, hv2, hm, handleMethod, hk, errorResponse, MethodNotFound, h2b, Version]
  | some fn =>
    cases hp : marshal req.Params with
    | error msg =>
      simp [handle, hv2, hm, handleMethod, hk, hp, errorResponse, Errorf, Version]
    | ok payload =>
      cases hr : fn ⟨payload⟩ with
      | late => simp [handle, hv2, hm, handleMethod, hk, hp, hr, errorResponse, h3, Version]
      | returns resp err =>
        cases err with
        | none =>
          simp [handle, hv2, hm, handleMethod, hk, hp, hr, successResponse, Version]
        | some ge =>
          cases ge with
          | other text =>
            simp [handle, hv2, hm, handleMethod, hk, hp, hr, errorResponse, Version]
          | typed e =>
            by_cases he : e.Code = c.InvalidRpcVersion.Code
            · simp [handle, hv2, hm, handleMethod, hk, hp, hr, errorResponse, he, Version]
              exact ⟨resp, e, ⟨rfl, rfl⟩, he⟩
            · simp [handle, hv2, hm, handleMethod, hk, hp, hr, errorResponse, he, Version]

/-- Witness of C19, amended: the registry of the example and the request for
`PingService.Ping`, answered with version `2.0`. -/
theorem handle_version_field_witness :
    sampleCatalog.InvalidMethodParam.Code ≠ sampleCatalog.InvalidRpcVersion.Code ∧
    sampleCatalog.InvalidRpcVersion.Code ≠ -32601 ∧
    sampleCatalog.ExecutionTimeoutError.Code ≠ sampleCatalog.InvalidRpcVersion.Code ∧
    (handle sampleCatalog sampleMarshal (AddService (NewService DefaultOpts) [PingService])
        ⟨"2.0", Value.float64 1, "PingService.Ping", Value.nil⟩).1.JsonRpc = "2.0" :=
  ⟨by decide, by decide, by decide,
   ((handle_version_field sampleCatalog sampleMarshal
      (AddService (NewService DefaultOpts) [PingService])
      ⟨"2.0", Value.float64 1, "PingService.Ping", Value.nil⟩
      (by decide) (by decide) (by decide)).2).resolve_left (by decide)⟩

/-! ## Registration order -/

theorem Sprintf_bare (M : String) : Sprintf "%s" ["", M] = "%!(EXTRA string=" ++ M ++ ")" := by
  apply String.ext
  simp [Sprintf, sprintfAux, String.intercalate, String.intercalate.go]

theorem composeKey_injective (name M N : String) (h : composeKey name M = composeKey name N) :
    M = N := by
  unfold composeKey at h
  by_cases hn : name = ""
  · subst hn
    simp only [ne_eq, not_true_eq_false, ↓reduceIte, Sprintf_bare] at h
    have hd := congrArg String.data h
    simp only [String.data_append] at hd
    exact String.ext (List.append_cancel_left (List.append_cancel_right hd))
  · simp only [ne_eq, hn, not_false_eq_true, ↓reduceIte, Sprintf_qualified] at h
    have hd := congrArg String.data h
    simp only [String.data_append] at hd
    exact String.ext (List.append_cancel_left hd)

theorem GoMap.get_append {α : Type} (a b : GoMap α) (k : String) :
    GoMap.get (a ++ b) k =
      (match GoMap.get a k with
       | some v => some v
       | none => GoMap.get b k) := by
  induction a with
  | nil => rfl
  | cons x xs ih =>
    obtain ⟨k0, v0⟩ := x
    by_cases hk : k = k0
    · simp [GoMap.get, hk]
    · simp [GoMap.get, hk, ih]

theorem GoMap.mem_keys_of_get {α : Type} (m : GoMap α) (k : String) (v : α)
    (h : GoMap.get m k = some v) : k ∈ m.map Prod.fst := by
  induction m with
  | nil => simp [GoMap.get] at h
  | cons x xs ih =>
    obtain ⟨k0, v0⟩ := x
    by_cases hk : k = k0
    · simp [hk]
    · simp only [GoMap.get, hk, ↓reduceIte] at h
      simp [ih h]

theorem GoMap.get_reverse {α : Type} (m : GoMap α) (hu : GoMap.Unique m) (k : String) :
    GoMap.get m.reverse k = GoMap.get m k := by
  induction m with
  | nil => rfl
  | cons x xs ih =>
    obtain ⟨k0, v0⟩ := x
    have hnd : k0 ∉ xs.map Prod.fst ∧ (xs.map Prod.fst).Nodup := by
      simpa [GoMap.Unique] using hu
    have ih2 := ih hnd.2
    rw [List.reverse_cons, GoMap.get_append, ih2]
    cases hx : GoMap.get xs k with
    | none =>
      simp [GoMap.get, hx]
    | some v =>
      have hmem := GoMap.mem_keys_of_get xs k v hx
      have hk : k ≠ k0 := fun h => hnd.1 (h ▸ hmem)
      simp [GoMap.get, hk, hx]

theorem GoMap.get_map_key {α : Type} (f : String → String)
    (hf : ∀ a b, f a = f b → a = b) (m : GoMap α) (M : String) :
    GoMap.get (m.map (fun kv => (f kv.1, kv.2))) (f M) = GoMap.get m M := by
  induction m with
  | nil => rfl
  | cons x xs ih =>
    obtain ⟨k0, v0⟩ := x
    by_cases hk : M = k0
    · simp [GoMap.get, hk]
    · have hk2 : f M ≠ f k0 := fun h => hk (hf _ _ h)
      simp [GoMap.get, hk, hk2, ih]

theorem GoMap.get_map_key_none {α : Type} (f : String → String) (m : GoMap α) (k : String)
    (h : ∀ M, f M = k → GoMap.get m M = none) :
    GoMap.get (m.map (fun kv => (f kv.1, kv.2))) k = none := by
  induction m with
  | nil => rfl
  | cons x xs ih =>
    obtain ⟨k0, v0⟩ := x
    have hk : k ≠ f k0 := by
      intro hk
      have := h k0 hk.symm
      simp [GoMap.get] at this
    have htail : ∀ M, f M = k → GoMap.get xs M = none := by
      intro M hM
      have := h M hM
      by_cases hM0 : M = k0
      · subst hM0
        exact absurd hM.symm hk
      · simpa [GoMap.get, hM0] using this
    simp [GoMap.get, hk, ih htail]

theorem GoMap.unique_map_key {α : Type} (f : String → String)
    (hf : ∀ a b, f a = f b → a = b) (m : GoMap α) (hu : GoMap.Unique m) :
    GoMap.Unique (m.map (fun kv => (f kv.1, kv.2))) := by
  unfold GoMap.Unique at *
  have : (m.map (fun kv => (f kv.1, kv.2))).map Prod.fst = (m.map Prod.fst).map f := by
    simp [List.map_map, Function.comp]
  rw [this]
  exact List.Nodup.map (fun a b h => hf a b h) hu

theorem addOne_eq (methodMap : RequestMap) (name : String) (requestMap : RequestMap) :
    addOne methodMap name requestMap =
      (requestMap.map (fun kv => (composeKey name kv.1, kv.2))).reverse ++ methodMap := by
  unfold addOne
  induction requestMap generalizing methodMap with
  | nil => rfl
  | cons x xs ih =>
    simp only [List.foldl_cons, List.map_cons, List.reverse_cons, List.append_assoc]
    rw [ih]
    rfl

theorem get_addOne (methodMap : RequestMap) (name : String) (requestMap : RequestMap)
    (hu : GoMap.Unique requestMap) (k : String) :
    GoMap.get (addOne methodMap name requestMap) k =
      (match GoMap.get (requestMap.map (fun kv => (composeKey name kv.1, kv.2))) k with
       | some h => some h
       | none => GoMap.get methodMap k) := by
  rw [addOne_eq, GoMap.get_append,
    GoMap.get_reverse _ (GoMap.unique_map_key _ (composeKey_injective name) _ hu)]
  cases GoMap.get (requestMap.map (fun kv => (composeKey name kv.1, kv.2))) k <;> rfl


theorem get_foldl_addOne_frame (post : List (String × RequestMap)) (base : RequestMap)
    (k : String) (hu : ∀ p ∈ post, GoMap.Unique p.2)
    (hno : ∀ p ∈ post, ∀ M, composeKey p.1 M = k → GoMap.get p.2 M = none) :
    GoMap.get (post.foldl (fun m srv => addOne m srv.1 srv.2) base) k = GoMap.get base k := by
  induction post generalizing base with
  | nil => rfl
  | cons p ps ih =>
    rw [List.foldl_cons,
      ih _ (fun q hq => hu q (List.mem_cons_of_mem p hq))
        (fun q hq => hno q (List.mem_cons_of_mem p hq)),
      get_addOne _ _ _ (hu p (List.mem_cons_self p ps)),
      GoMap.get_map_key_none _ _ _ (hno p (List.mem_cons_self p ps))]

/-- C15. Last registration wins: let the providers passed to `AddService` be
Go maps (no key twice). Then for every key k: if no provider composes k, the
method map keeps the binding k had before; if a provider binds a method M with
composed key k to h and no provider after it, in registration order, composes
k, the method map binds k to h; and registering in successive calls is the same
as registering the concatenated sequence in one call. -/
theorem AddService_last_wins (s : Service) (services : List (String × RequestMap))
    (hmaps : ∀ p ∈ services, GoMap.Unique p.2) (k : String) :
    ((∀ p ∈ services, ∀ M, composeKey p.1 M = k → GoMap.get p.2 M = none) →
      GoMap.get (AddService s services).methodMap k = GoMap.get s.methodMap k) ∧
    (∀ (pre post : List (String × RequestMap)) (srv : String × RequestMap) (M : String)
        (h : RequestFunc),
      services = pre ++ srv :: post →
      (∀ p ∈ post, ∀ M2, composeKey p.1 M2 = k → GoMap.get p.2 M2 = none) →
      composeKey srv.1 M = k → GoMap.get srv.2 M = some h →
      GoMap.get (AddService s services).methodMap k = some h) ∧
    (∀ xs ys : List (String × RequestMap),
      AddService (AddService s xs) ys = AddService s (xs ++ ys)) := by
  refine ⟨?_, ?_, ?_⟩
  · intro hno
    exact get_foldl_addOne_frame services s.methodMap k hmaps hno
  · intro pre post srv M h hsplit hno hkey hget
    subst hsplit
    have hpost : ∀ p ∈ post, GoMap.Unique p.2 := fun p hp =>
      hmaps p (List.mem_append_right pre (List.mem_cons_of_mem srv hp))
    have hsrv : GoMap.Unique srv.2 :=
      hmaps srv (List.mem_append_right pre (List.mem_cons_self srv post))
    simp only [AddService, List.foldl_append, List.foldl_cons]
    rw [get_foldl_addOne_frame post _ k hpost hno, get_addOne _ _ _ hsrv, ← hkey,
      GoMap.get_map_key _ (composeKey_injective srv.1), hget]
  · intro xs ys
    simp [AddService, List.foldl_append]

/-- Witness of C15: `PingService` is registered, then a second provider of the
same name whose `Ping` runs into the timeout; the key `PingService.Ping` is
bound to the handler of the second. -/
theorem AddService_last_wins_witness :
    GoMap.get (AddService (NewService DefaultOpts)
        [PingService, ("PingService", [("Ping", fun _ => HandlerRun.late)])]).methodMap
      "PingService.Ping" = some (fun _ => HandlerRun.late) :=
  (AddService_last_wins (NewService DefaultOpts)
      [PingService, ("PingService", [("Ping", fun _ => HandlerRun.late)])]
      (by
        intro p hp
        simp only [List.mem_cons, List.mem_singleton, List.not_mem_nil, or_false] at hp
        rcases hp with rfl | rfl <;> decide)
      "PingService.Ping").2.1
    [PingService] [] ("PingService", [("Ping", fun _ => HandlerRun.late)]) "Ping"
    (fun _ => HandlerRun.late) rfl (by simp) (by decide) rfl

/-! ## The timer branch

Which case of the `select` in `handleMethod` is taken depends on wall-clock
time and scheduling and is an input of the embedding (`HandlerRun.late`). What
`handle` returns once the timer case is taken is a plain function of the
request. -/

theorem handle_timer_branch (c : Catalog) (marshal : Value → Except String Bytes)
    (s : Service) (req : Request) (fn : RequestFunc) (payload : Bytes)
    (hv : req.JsonRpc = "2.0") (hm : TrimSpace req.Method ≠ "")
    (hk : GoMap.get s.methodMap req.Method = some fn)
    (hp : marshal req.Params = Except.ok payload)
    (hr : fn ⟨payload⟩ = HandlerRun.late) :
    handle c marshal s req =
      (errorResponse c req (GoError.typed c.ExecutionTimeoutError), [⟨req.Method, payload⟩]) := by
  have hv2 : req.JsonRpc = Version := hv
  simp [handle, hv2, hm, handleMethod, hk, hp, hr]

end JsonRpc
